import Mathlib

/-!
Verification development for the voice-agent call-orchestration frontend.

The definitions below are a shallow embedding of the orchestration logic of
the main page component (src/unnamed/part_000): the signal extractors
(`extractPhoneNumber`, `extractName`), the voice-activity detector
(`checkAudioLevel`), the capture/playback/auto-restart state machine
(`scheduleAutoRestart`, `startListening`, `stopListening`, `endCallSync`, ...)
and the streamed-response consumer of `sendVoiceMessage`.

Strings are modelled as `List Char`; the JavaScript regular expressions used
by the source are modelled by explicit scanning functions with the same
matching semantics (leftmost match, greedy repetition, ASCII classes).
-/

namespace VoiceAgent

/- ===================== Character classes (JS regex classes) ===================== -/

/-- JS `\s` restricted to the ASCII whitespace characters (space, tab, newline,
vertical tab, form feed, carriage return). -/
def jsWs (c : Char) : Bool :=
  c = ' ' || c = '\t' || c = '\n' || c = '\r' || c = Char.ofNat 11 || c = Char.ofNat 12

/-- The separator class `[\s\-\(\)\.\,]` removed by `extractPhoneNumber`
(part_000 line 133). -/
def isSep (c : Char) : Bool :=
  jsWs c || c = '-' || c = '(' || c = ')' || c = '.' || c = ','

/-- JS `\w` (ASCII word character), used for the `\b` word boundaries of the
spoken-digit-word replacement. -/
def isWordChar (c : Char) : Bool :=
  c.isAlpha || c.isDigit || c = '_'

/-- Lower-case a character sequence (models `String.prototype.toLowerCase` on
ASCII input). -/
def lowerL (s : List Char) : List Char :=
  s.map Char.toLower

/- ===================== extractPhoneNumber (part_000 lines 119-152) ===================== -/

/-- Word-boundary test for the position right after a candidate match of a
spoken digit word: the match is accepted only if no word character follows. -/
def noWordNext : List Char → Bool
  | [] => true
  | c :: _ => !isWordChar c

/-- One pass of `normalized.replace(new RegExp("\\b" ++ word ++ "\\b", "g"), digit)`:
scan left to right; at a position with no word character before it where the
word is a prefix and no word character follows it, emit the digit and skip the
word; otherwise emit the current character.  `fuel` bounds the recursion and
is instantiated with the length of the input, which each step decreases. -/
def replaceWordAux (w : List Char) (d : Char) : Nat → Bool → List Char → List Char
  | 0, _, s => s
  | _ + 1, _, [] => []
  | fuel + 1, prevW, c :: rest =>
    if 0 < w.length && !prevW && w.isPrefixOf (c :: rest) && noWordNext ((c :: rest).drop w.length) then
      d :: replaceWordAux w d fuel true ((c :: rest).drop w.length)
    else
      c :: replaceWordAux w d fuel (isWordChar c) rest

/-- Replace every word-boundary occurrence of `w` by the digit `d`. -/
def replaceWord (w : List Char) (d : Char) (s : List Char) : List Char :=
  replaceWordAux w d s.length false s

/-- The spoken-number-word table, in the source's insertion order
(`Object.entries(numberWords)`). -/
def numberWords : List (List Char × Char) :=
  [ (("zero").toList, '0'), (("one").toList, '1'), (("two").toList, '2'),
    (("three").toList, '3'), (("four").toList, '4'), (("five").toList, '5'),
    (("six").toList, '6'), (("seven").toList, '7'), (("eight").toList, '8'),
    (("nine").toList, '9'), (("oh").toList, '0'), (("o").toList, '0') ]

/-- Sequentially replace each spoken digit word by its digit (the
`Object.entries(numberWords).forEach` loop over `replace`). -/
def normalizeWords (s : List Char) : List Char :=
  numberWords.foldl (fun acc p => replaceWord p.1 p.2 acc) s

/-- Scanner for the first match of `/\d{10,}/`: accumulate the current run of
digits (reversed); when a run ends (non-digit or end of input) return it if it
has at least 10 digits, otherwise keep scanning. -/
def firstRun10Go (current : List Char) : List Char → Option (List Char)
  | [] => if 10 ≤ current.length then some current.reverse else none
  | c :: rest =>
    if c.isDigit then firstRun10Go (c :: current) rest
    else if 10 ≤ current.length then some current.reverse
    else firstRun10Go [] rest

/-- First maximal run of at least 10 consecutive digits (the match of
`/\d{10,}/`), or `none`. -/
def firstRun10 (l : List Char) : Option (List Char) :=
  firstRun10Go [] l

/-- Character class of the `(\d\s*)` group. -/
def digitOrWs (c : Char) : Bool :=
  c.isDigit || jsWs c

/-- First match of `/(\d\s*){10,}/`: at each position starting with a digit,
the greedy match is the maximal following block of digits and whitespace; it
succeeds when that block holds at least 10 digits (10 repetitions of the
group, each contributing exactly one digit). -/
def firstSpaced : List Char → Option (List Char)
  | [] => none
  | c :: rest =>
    if c.isDigit && 10 ≤ ((c :: rest.takeWhile digitOrWs).filter Char.isDigit).length then
      some (c :: rest.takeWhile digitOrWs)
    else firstSpaced rest

/-- `slice(-n)`: the last `n` elements. -/
def lastN (n : Nat) (l : List Char) : List Char :=
  l.drop (l.length - n)

/-- `extractPhoneNumber` of part_000 lines 119-152 on character lists:
normalize spoken digit words, strip separators, return the last 10 digits of
the first run of 10 or more digits; otherwise try the spaced-digit pattern on
the normalized (unstripped) text; otherwise `none`. -/
def extractPhoneNumberL (text : List Char) : Option (List Char) :=
  let normalized := normalizeWords (lowerL text)
  let cleanedDigits := normalized.filter (fun c => !isSep c)
  match firstRun10 cleanedDigits with
  | some run => some (lastN 10 run)
  | none =>
    match firstSpaced normalized with
    | some m =>
      let digits := m.filter Char.isDigit
      if 10 ≤ digits.length then some (lastN 10 digits) else none
    | none => none

/-- `extractPhoneNumber` on strings. -/
def extractPhoneNumber (text : String) : Option String :=
  (extractPhoneNumberL text.toList).map fun l => String.mk l

/-- Modelled from the spec: "normalizes spoken digit words to numerals, strips
punctuation/separators, and returns the last 10 digits of the first run of
≥10 consecutive digits found; returns none if no such run exists" — stated
without the source's spaced-digit fallback, for comparison with
`extractPhoneNumberL`. -/
def phoneSpecL (text : List Char) : Option (List Char) :=
  (firstRun10 ((normalizeWords (lowerL text)).filter (fun c => !isSep c))).map (lastN 10)

/- ===================== extractName (part_000 lines 155-180) ===================== -/

/-- Try one literal alternative of a name pattern at the current position:
the alternative must match case-insensitively, followed by `\s+` and a
captured `[a-z]+` (with the `i` flag: ASCII letters).  Returns the capture. -/
def tryAlt (alt : List Char) (s : List Char) : Option (List Char) :=
  if lowerL (s.take alt.length) = alt then
    let rest := s.drop alt.length
    let letters := (rest.dropWhile jsWs).takeWhile Char.isAlpha
    if 0 < (rest.takeWhile jsWs).length && 0 < letters.length then some letters
    else none
  else none

/-- Leftmost match of a pattern given as a list of literal alternatives
followed by `\s+([a-z]+)`: scan positions left to right, trying the
alternatives in order at each position. -/
def findPat (alts : List (List Char)) : List Char → Option (List Char)
  | [] => none
  | c :: rest =>
    match alts.findSome? (fun a => tryAlt a (c :: rest)) with
    | some cap => some cap
    | none => findPat alts rest

/-- The five name patterns of part_000 lines 159-165, each as its literal
alternatives (lower-cased; matching is case-insensitive). -/
def namePatterns : List (List (List Char)) :=
  [ [("my name is").toList],
    [("i'm").toList, ("i am").toList],
    [("this is").toList],
    [("call me").toList],
    [("name's").toList, ("name is").toList] ]

/-- The false-positive denylist of part_000 line 172. -/
def falsePositivesL : List (List Char) :=
  [ ("calling").toList, ("looking").toList, ("trying").toList, ("here").toList,
    ("there").toList, ("asking").toList, ("booking").toList ]

/-- `name.charAt(0).toUpperCase() + name.slice(1).toLowerCase()`. -/
def capitalizeL : List Char → List Char
  | [] => []
  | c :: rest => c.toUpper :: rest.map Char.toLower

/-- The `for (const pattern of namePatterns)` loop: take the first match of
each pattern in order; a capture on the denylist is skipped and the loop
moves to the next pattern. -/
def extractNameGo (text : List Char) : List (List (List Char)) → Option (List Char)
  | [] => none
  | p :: ps =>
    match findPat p text with
    | some cap =>
      if falsePositivesL.contains (lowerL cap) then extractNameGo text ps
      else some (capitalizeL cap)
    | none => extractNameGo text ps

/-- `extractName` of part_000 lines 155-180 on character lists. -/
def extractNameL (text : List Char) : Option (List Char) :=
  extractNameGo text namePatterns

/-- `extractName` on strings. -/
def extractName (text : String) : Option String :=
  (extractNameL text.toList).map fun l => String.mk l

/- ===================== Voice activity detection (part_000 lines 399-433) ===================== -/

/-- Volume level at or below which a sample counts as silence. -/
def SILENCE_THRESHOLD : Nat := 15

/-- Milliseconds of silence before the VAD stops the recording. -/
def SILENCE_DURATION : Nat := 1500

/-- The VAD's mutable closure state in `startVoiceDetection`. -/
structure VadState where
  lastSoundTime : Nat
  hasSpoken : Bool
deriving Repr, DecidableEq

/-- One iteration of `checkAudioLevel`: given the current time and the average
amplitude, update `lastSoundTime`/`hasSpoken`; the returned flag is whether
this tick stops the recorder (the silence branch of lines 419-426). -/
def checkAudioLevel (v : VadState) (now amp : Nat) : VadState × Bool :=
  if SILENCE_THRESHOLD < amp then ({ lastSoundTime := now, hasSpoken := true }, false)
  else if v.hasSpoken && SILENCE_DURATION < now - v.lastSoundTime then (v, true)
  else (v, false)

/-- Run the self-rescheduling `checkAudioLevel` loop over a finite sequence of
(time, amplitude) samples observed while the recording is open; returns the
final VAD state and whether a silence-triggered stop fired. -/
def runVad (v : VadState) : List (Nat × Nat) → VadState × Bool
  | [] => (v, false)
  | (now, amp) :: rest =>
    let r := checkAudioLevel v now amp
    if r.2 then (r.1, true) else runVad r.1 rest

/- ===================== Call orchestrator state (part_000 lines 40-116, 436-694) ===================== -/

/-- The orchestrator's mutable flags: the React state and the refs mirrored
into callbacks (`isCallActiveRef`, `isRecordingRef`, `isMicPausedRef`,
`isProcessingRef`, `isSpeakingRef`, `autoRestartTimeoutRef`).  `openSessions`
counts the recording sessions currently open (ghost variable for the
at-most-one-session invariant) and `sentBlobs` logs the sizes of the audio
blobs handed to `sendVoiceMessage` (ghost log for the send path). -/
structure AgentState where
  isCallActive : Bool
  isRecording : Bool
  isListening : Bool
  isMicPaused : Bool
  isProcessing : Bool
  isSpeaking : Bool
  isMuted : Bool
  hasSession : Bool
  pendingRestart : Option Nat
  openSessions : Nat
  sentBlobs : List Nat
deriving Repr, DecidableEq

/-- The guard re-validated when a scheduled auto-restart's delay elapses
(part_000 lines 106-112). -/
def restartGuard (s : AgentState) : Bool :=
  s.isCallActive && !s.isRecording && !s.isMicPaused && !s.isProcessing && !s.isSpeaking

/-- `scheduleAutoRestart(delay)`: any prior pending restart is cleared and a
single new one is armed (part_000 lines 95-116, scheduling part). -/
def scheduleAutoRestart (delay : Nat) (s : AgentState) : AgentState :=
  { s with pendingRestart := some delay }

/-- The synchronous effect of `startListening` (part_000 lines 436-491): a
no-op when a recording is in progress, a turn is processing or audio is
playing; a no-op on the recording state when microphone access fails
(`micOk = false`, the catch of line 493); otherwise a new recorder is created
and recording/listening start. -/
def startListening (micOk : Bool) (s : AgentState) : AgentState :=
  if s.isRecording || s.isProcessing || s.isSpeaking then s
  else if micOk then
    { s with isRecording := true, isListening := true, openSessions := s.openSessions + 1 }
  else s

/-- `stopListening` (part_000 lines 509-521): stop the open recorder, clear
the recording and listening flags. -/
def stopListening (s : AgentState) : AgentState :=
  { s with isRecording := false, isListening := false,
           openSessions := if s.isRecording then s.openSessions - 1 else s.openSessions }

/-- `clearAudio` (part_000 lines 389-392): flush the playback sink and mark
speaking false. -/
def clearAudio (s : AgentState) : AgentState :=
  { s with isSpeaking := false }

/-- The synchronous prefix of `sendVoiceMessage` (part_000 lines 696-700):
return immediately without a session, otherwise mark processing. -/
def sendVoiceMessageStart (s : AgentState) : AgentState :=
  if s.hasSession then { s with isProcessing := true } else s

/-- The `mediaRecorder.onstop` handler (part_000 lines 465-474): a blob above
the minimum size is handed to the send path, otherwise it is discarded and a
restart is scheduled with the short delay.  The hand-off is logged in
`sentBlobs`. -/
def onRecorderStop (size : Nat) (s : AgentState) : AgentState :=
  if 1000 < size then sendVoiceMessageStart { s with sentBlobs := s.sentBlobs ++ [size] }
  else scheduleAutoRestart 100 s

/-- The timer callback of `scheduleAutoRestart` (part_000 lines 102-115): the
handle is cleared first; capture starts only if the guard re-validates. -/
def fireAutoRestart (micOk : Bool) (s : AgentState) : AgentState :=
  let s1 := { s with pendingRestart := none }
  if restartGuard s1 then startListening micOk s1 else s1

/-- The synchronous prefix of `endCall` (part_000 lines 609-632), everything
before the first `await`: flip the active ref, clear the pending restart
timer, mark processing, flush playback (`clearAudio`) and stop any in-flight
recording (`stopListening`). -/
def endCallSync (s : AgentState) : AgentState :=
  stopListening (clearAudio
    { s with isCallActive := false, pendingRestart := none, isProcessing := true })

/-- The asynchronous activities whose handlers drive the orchestrator.  Stop
events carry the size of the resulting audio blob and deliver the stopped
recorder's `onstop` atomically; `micOk` is whether `getUserMedia` succeeds. -/
inductive Ev where
  | startCallOk
  | endCallEv (size : Nat)
  | endCallDone
  | toggleMicEv (micOk : Bool) (size : Nat)
  | toggleMuteEv
  | restartFire (micOk : Bool)
  | vadStop (size : Nat)
  | safetyStop (size : Nat)
  | streamAudio
  | streamDone (endFlag : Bool) (size : Nat)
  | workletEnded
  | turnEnd
deriving Repr, DecidableEq

/-- One step of the orchestrator: the source handler run for each event.
Stream events (`streamAudio`, `streamDone`) are delivered inside the
`sendVoiceMessage` loop and hence only have an effect while processing. -/
def step (s : AgentState) : Ev → AgentState
  | .startCallOk =>
      scheduleAutoRestart 500
        { s with hasSession := true, isCallActive := true, isMicPaused := false }
  | .endCallEv size =>
      if s.hasSession then
        if s.isRecording then onRecorderStop size (endCallSync s) else endCallSync s
      else s
  | .endCallDone => { s with isProcessing := false }
  | .toggleMicEv micOk size =>
      if s.isListening then
        if s.isRecording then onRecorderStop size (stopListening { s with isMicPaused := true })
        else stopListening { s with isMicPaused := true }
      else startListening micOk { s with isMicPaused := false }
  | .toggleMuteEv =>
      if s.isMuted then { s with isMuted := false } else clearAudio { s with isMuted := true }
  | .restartFire micOk =>
      match s.pendingRestart with
      | none => s
      | some _ => fireAutoRestart micOk s
  | .vadStop size =>
      if s.isRecording then onRecorderStop size (stopListening s) else s
  | .safetyStop size =>
      if s.isRecording then onRecorderStop size (stopListening s) else s
  | .streamAudio =>
      if s.isProcessing then (if s.isMuted then s else { s with isSpeaking := true }) else s
  | .streamDone endFlag size =>
      if s.isProcessing then
        if endFlag then
          (if s.hasSession then
            (if s.isRecording then onRecorderStop size (endCallSync s) else endCallSync s)
          else s)
        else scheduleAutoRestart 500 s
      else s
  | .workletEnded => scheduleAutoRestart 300 (clearAudio s)
  | .turnEnd => { s with isProcessing := false }

/-- The component's initial state (all flags false, no timers, no session). -/
def initState : AgentState :=
  { isCallActive := false, isRecording := false, isListening := false,
    isMicPaused := false, isProcessing := false, isSpeaking := false,
    isMuted := false, hasSession := false, pendingRestart := none,
    openSessions := 0, sentBlobs := [] }

/-- Run a sequence of events. -/
def steps (s : AgentState) : List Ev → AgentState
  | [] => s
  | e :: es => steps (step s e) es

/-- The events whose source handlers may call `scheduleAutoRestart` (the
natural triggers: call start, playback end, turn completion, and the `onstop`
of any stopped recorder). -/
def canSchedule : Ev → Bool
  | .startCallOk => true
  | .endCallEv _ => true
  | .toggleMicEv _ _ => true
  | .vadStop _ => true
  | .safetyStop _ => true
  | .streamDone _ _ => true
  | .workletEnded => true
  | _ => false

/-- Whether an event starts a new call. -/
def isStartCall : Ev → Bool
  | .startCallOk => true
  | _ => false

/- ===================== Streamed-response consumer (part_000 lines 727-809) ===================== -/

/-- Tool-call status values of `ToolCallData` (ToolCallDisplay component). -/
inductive ToolStatus where
  | pending
  | running
  | completed
  | error
deriving Repr, DecidableEq

/-- One tool-call record shown in the tool-call panel. -/
structure ToolCallData where
  id : String
  name : String
  parameters : Option String
  result : Option String
  status : ToolStatus
deriving Repr, DecidableEq

/-- The tagged union of parsed stream events (`event.type` of the SSE lines). -/
inductive StreamEvent where
  | userTranscript (data : String)
  | toolCallStart (id name : String) (parameters : Option String)
  | toolCallEnd (id : String) (result : String)
  | transcript (data : String)
  | audio (data : String)
  | done (endCallFlag : Bool)
  | error (message : String)
deriving Repr, DecidableEq

/-- One `data: `-prefixed line of the response stream: either it parses to an
event or `JSON.parse` raises a `SyntaxError`. -/
inductive SseLine where
  | malformed
  | ev (e : StreamEvent)
deriving Repr, DecidableEq

/-- The turn-level state mutated by the stream loop of `sendVoiceMessage`:
messages, tool calls, the accumulating assistant transcript, the live
transcript preview, the audio frames forwarded to playback, and ghost
observables for the completion signal, a requested restart or call end, the
`console.error` log of the per-line catch, and whether the outer catch's
error toast was shown. -/
structure TurnState where
  messages : List (String × String)
  toolCalls : List ToolCallData
  assistantTranscript : String
  currentTranscript : String
  audioPlayed : List String
  audioCompleteSignalled : Bool
  restartScheduled : Option Nat
  endCallRequested : Bool
  consoleErrors : Nat
  toastShown : Bool
deriving Repr, DecidableEq

/-- The `tool_call_end` case (part_000 lines 760-766): map over the records,
setting result and completed status on the one whose id matches. -/
def toolCallEndUpdate (id result : String) (tcs : List ToolCallData) : List ToolCallData :=
  tcs.map fun tc =>
    if tc.id = id then { tc with result := some result, status := .completed } else tc

/-- The `switch (event.type)` of part_000 lines 741-802.  The `error` case's
`throw new Error(event.error)` is caught by the per-line catch wrapped
around `JSON.parse` and the switch (lines 738-807), which logs any
non-SyntaxError to the console and continues with the next line. -/
def processStreamEvent (t : TurnState) : StreamEvent → TurnState
  | .userTranscript d => { t with messages := t.messages ++ [(("user"), d)] }
  | .toolCallStart id name params =>
      { t with toolCalls := t.toolCalls ++
          [{ id := id, name := name, parameters := params, result := none, status := .running }] }
  | .toolCallEnd id result => { t with toolCalls := toolCallEndUpdate id result t.toolCalls }
  | .transcript d =>
      { t with assistantTranscript := t.assistantTranscript ++ d,
               currentTranscript := t.assistantTranscript ++ d }
  | .audio d => { t with audioPlayed := t.audioPlayed ++ [d] }
  | .done endFlag =>
      let t1 := { t with audioCompleteSignalled := true }
      let t2 :=
        if t1.assistantTranscript ≠ ("") then
          { t1 with messages := t1.messages ++ [(("assistant"), t1.assistantTranscript)] }
        else t1
      let t3 := { t2 with currentTranscript := ("") }
      if endFlag then { t3 with endCallRequested := true }
      else { t3 with restartScheduled := some 500 }
  | .error _ => { t with consoleErrors := t.consoleErrors + 1 }

/-- One line of the stream: a malformed line's `SyntaxError` is skipped
silently; otherwise the parsed event is dispatched. -/
def processLine (t : TurnState) : SseLine → TurnState
  | .malformed => t
  | .ev e => processStreamEvent t e

/-- The `for (const line of lines)` loop over the whole stream. -/
def processLines (t : TurnState) : List SseLine → TurnState
  | [] => t
  | l :: ls => processLines (processLine t l) ls

/-- The turn state at the start of a call (`setMessages([]); setToolCalls([])`;
empty transcripts). -/
def initTurn : TurnState :=
  { messages := [], toolCalls := [], assistantTranscript := "",
    currentTranscript := "", audioPlayed := [], audioCompleteSignalled := false,
    restartScheduled := none, endCallRequested := false, consoleErrors := 0,
    toastShown := false }

/-- Status values the stream path may assign to a tool-call record. -/
def streamStatusOk : ToolStatus → Bool
  | .running => true
  | .completed => true
  | _ => false

/-- A concrete stream for the error-event behaviour: an explicit error event
followed by further events of the same turn. -/
def errorStreamInput : List SseLine :=
  [ SseLine.ev (StreamEvent.error ("upstream failure")),
    SseLine.ev (StreamEvent.userTranscript ("hello")),
    SseLine.ev (StreamEvent.toolCallStart ("t1") ("book_appointment") none) ]

/-- A concrete stream creating one tool call and completing it. -/
def demoToolLines : List SseLine :=
  [ SseLine.ev (StreamEvent.toolCallStart ("t1") ("book_appointment") none),
    SseLine.ev (StreamEvent.toolCallEnd ("t1") ("ok")) ]

/-- A concrete running tool-call record. -/
def demoTool : ToolCallData :=
  { id := ("t1"), name := ("book_appointment"), parameters := none, result := none, status := ToolStatus.running }

/- ===================== Orchestrator invariants ===================== -/

/-- The inductive invariant of the orchestrator: the number of open recording
sessions matches the recording flag (hence is at most one), processing a turn
excludes an open recording, and capture and playback are never simultaneously
active. -/
def Inv (s : AgentState) : Prop :=
  s.openSessions = (if s.isRecording = true then 1 else 0)
  ∧ (s.isProcessing = true → s.isRecording = false)
  ∧ ¬(s.isRecording = true ∧ s.isSpeaking = true)

theorem inv_startListening (micOk : Bool) (s : AgentState) (h : Inv s) :
    Inv (startListening micOk s) := by
  obtain ⟨h1, h2, h3⟩ := h
  unfold startListening
  by_cases hg : (s.isRecording || s.isProcessing || s.isSpeaking) = true
  · simp only [hg, if_true]; exact ⟨h1, h2, h3⟩
  · simp only [Bool.or_eq_true, not_or, Bool.not_eq_true] at hg
    obtain ⟨⟨hr, hp⟩, hs⟩ := hg
    have hg2 : (s.isRecording || s.isProcessing || s.isSpeaking) = false := by
      simp [hr, hp, hs]
    rw [hg2]
    cases micOk with
    | true =>
      simp only [Bool.false_eq_true, if_false, if_true]
      refine ⟨?_, ?_, ?_⟩ <;> simp [Inv, hr, hp, hs] at h1 ⊢
      omega
    | false =>
      simp only [Bool.false_eq_true, if_false]
      exact ⟨h1, h2, h3⟩

theorem inv_stopListening (s : AgentState) (h : Inv s) : Inv (stopListening s) := by
  obtain ⟨h1, h2, h3⟩ := h
  unfold stopListening
  refine ⟨?_, ?_, ?_⟩ <;> cases hr : s.isRecording <;> simp [hr] at h1 ⊢ <;> omega

theorem inv_sendVoiceMessageStart (s : AgentState) (h : Inv s)
    (hr : s.isRecording = false) : Inv (sendVoiceMessageStart s) := by
  obtain ⟨h1, h2, h3⟩ := h
  unfold sendVoiceMessageStart
  by_cases hs : s.hasSession = true
  · simp only [hs, if_true]
    refine ⟨?_, ?_, ?_⟩ <;> simp [hr, h1, h3]
  · simp only [hs, if_false]
    exact ⟨h1, h2, h3⟩

theorem inv_onRecorderStop (size : Nat) (s : AgentState) (h : Inv s)
    (hr : s.isRecording = false) : Inv (onRecorderStop size s) := by
  obtain ⟨h1, h2, h3⟩ := h
  unfold onRecorderStop
  by_cases hsz : 1000 < size
  · simp only [hsz, if_true]
    exact inv_sendVoiceMessageStart _ ⟨h1, h2, h3⟩ hr
  · simp only [hsz, if_false]
    exact ⟨h1, h2, h3⟩

theorem inv_endCallSync (s : AgentState) (h : Inv s) : Inv (endCallSync s) := by
  obtain ⟨h1, h2, h3⟩ := h
  unfold endCallSync clearAudio stopListening
  refine ⟨?_, ?_, ?_⟩ <;> cases hr : s.isRecording <;> simp [hr] at h1 ⊢ <;> omega

theorem endCallSync_isRecording (s : AgentState) : (endCallSync s).isRecording = false := by
  simp [endCallSync, clearAudio, stopListening]

theorem stopListening_isRecording (s : AgentState) : (stopListening s).isRecording = false := by
  simp [stopListening]

theorem inv_fireAutoRestart (micOk : Bool) (s : AgentState) (h : Inv s) :
    Inv (fireAutoRestart micOk s) := by
  obtain ⟨h1, h2, h3⟩ := h
  unfold fireAutoRestart
  by_cases hg : restartGuard { s with pendingRestart := none } = true
  · simp only [hg, if_true]
    exact inv_startListening micOk _ ⟨h1, h2, h3⟩
  · simp only [hg, if_false]
    exact ⟨h1, h2, h3⟩

theorem inv_step (s : AgentState) (e : Ev) (h : Inv s) : Inv (step s e) := by
  obtain ⟨h1, h2, h3⟩ := h
  cases e with
  | startCallOk =>
    simp only [step, scheduleAutoRestart]
    exact ⟨h1, h2, h3⟩
  | endCallEv size =>
    simp only [step]
    split_ifs with hs hr
    · exact inv_onRecorderStop size _ (inv_endCallSync s ⟨h1, h2, h3⟩)
        (endCallSync_isRecording s)
    · exact inv_endCallSync s ⟨h1, h2, h3⟩
    · exact ⟨h1, h2, h3⟩
  | endCallDone =>
    simp only [step]
    exact ⟨h1, by simp, h3⟩
  | toggleMicEv micOk size =>
    simp only [step]
    split_ifs with hl hr
    · have hinv : Inv { s with isMicPaused := true } := ⟨h1, h2, h3⟩
      exact inv_onRecorderStop size _ (inv_stopListening _ hinv)
        (stopListening_isRecording _)
    · have hinv : Inv { s with isMicPaused := true } := ⟨h1, h2, h3⟩
      exact inv_stopListening _ hinv
    · have hinv : Inv { s with isMicPaused := false } := ⟨h1, h2, h3⟩
      exact inv_startListening micOk _ hinv
  | toggleMuteEv =>
    simp only [step]
    split_ifs with hm
    · exact ⟨h1, h2, h3⟩
    · unfold clearAudio
      exact ⟨h1, h2, by simp⟩
  | restartFire micOk =>
    simp only [step]
    cases s.pendingRestart with
    | none => exact ⟨h1, h2, h3⟩
    | some d => exact inv_fireAutoRestart micOk s ⟨h1, h2, h3⟩
  | vadStop size =>
    simp only [step]
    split_ifs with hr
    · exact inv_onRecorderStop size _ (inv_stopListening _ ⟨h1, h2, h3⟩)
        (stopListening_isRecording _)
    · exact ⟨h1, h2, h3⟩
  | safetyStop size =>
    simp only [step]
    split_ifs with hr
    · exact inv_onRecorderStop size _ (inv_stopListening _ ⟨h1, h2, h3⟩)
        (stopListening_isRecording _)
    · exact ⟨h1, h2, h3⟩
  | streamAudio =>
    simp only [step]
    split_ifs with hp hm
    · exact ⟨h1, h2, h3⟩
    · refine ⟨h1, fun hpp => h2 hpp, ?_⟩
      simp [h2 hp]
    · exact ⟨h1, h2, h3⟩
  | streamDone endFlag size =>
    simp only [step]
    split_ifs with hp hf hs hr
    · exact inv_onRecorderStop size _ (inv_endCallSync s ⟨h1, h2, h3⟩)
        (endCallSync_isRecording s)
    · exact inv_endCallSync s ⟨h1, h2, h3⟩
    · exact ⟨h1, h2, h3⟩
    · unfold scheduleAutoRestart
      exact ⟨h1, h2, h3⟩
    · exact ⟨h1, h2, h3⟩
  | workletEnded =>
    simp only [step, scheduleAutoRestart, clearAudio]
    exact ⟨h1, h2, by simp⟩
  | turnEnd =>
    simp only [step]
    exact ⟨h1, by simp, h3⟩

theorem inv_steps (s : AgentState) (es : List Ev) (h : Inv s) : Inv (steps s es) := by
  induction es generalizing s with
  | nil => exact h
  | cons e es ih => exact ih _ (inv_step s e h)

theorem inv_initState : Inv initState := by
  refine ⟨?_, ?_, ?_⟩ <;> simp [initState, Inv]

theorem activeFalse_step (s : AgentState) (e : Ev) (he : isStartCall e = false)
    (h : s.isCallActive = false) : (step s e).isCallActive = false := by
  cases e with
  | startCallOk => simp [isStartCall] at he
  | endCallEv size =>
    simp only [step]
    split_ifs <;>
      simp [onRecorderStop, sendVoiceMessageStart, scheduleAutoRestart, endCallSync,
        stopListening, clearAudio, h] <;> split_ifs <;> simp [h]
  | endCallDone => simpa [step] using h
  | toggleMicEv micOk size =>
    simp only [step]
    split_ifs <;>
      simp [onRecorderStop, sendVoiceMessageStart, scheduleAutoRestart, stopListening,
        startListening, h] <;> split_ifs <;> simp [h]
  | toggleMuteEv =>
    simp only [step]
    split_ifs <;> simp [clearAudio, h]
  | restartFire micOk =>
    simp only [step]
    cases s.pendingRestart with
    | none => exact h
    | some d =>
      simp only [fireAutoRestart, startListening]
      split_ifs <;> simp [h]
  | vadStop size =>
    simp only [step]
    split_ifs <;>
      simp [onRecorderStop, sendVoiceMessageStart, scheduleAutoRestart, stopListening, h] <;>
      split_ifs <;> simp [h]
  | safetyStop size =>
    simp only [step]
    split_ifs <;>
      simp [onRecorderStop, sendVoiceMessageStart, scheduleAutoRestart, stopListening, h] <;>
      split_ifs <;> simp [h]
  | streamAudio =>
    simp only [step]
    split_ifs <;> simp [h]
  | streamDone endFlag size =>
    simp only [step]
    split_ifs <;>
      simp [onRecorderStop, sendVoiceMessageStart, scheduleAutoRestart, endCallSync,
        stopListening, clearAudio, h] <;> split_ifs <;> simp [h]
  | workletEnded => simp [step, scheduleAutoRestart, clearAudio, h]
  | turnEnd => simpa [step] using h

theorem activeFalse_steps (s : AgentState) (es : List Ev)
    (hes : ∀ e ∈ es, isStartCall e = false) (h : s.isCallActive = false) :
    (steps s es).isCallActive = false := by
  induction es generalizing s with
  | nil => exact h
  | cons e es ih =>
    exact ih _ (fun x hx => hes x (by simp [hx])) (activeFalse_step s e (hes e (by simp)) h)

theorem pending_none_eta (s : AgentState) (h : s.pendingRestart = none) :
    { s with pendingRestart := none } = s := by
  cases s
  simp only at h
  simp [h]

/- ===================== Claim theorems ===================== -/

/-- C1: when a scheduled auto-restart's delay elapses, capture starts only if
the call is still active, no recording is in progress, the mic is not
manually paused, the system is not processing and audio is not playing; if
any condition fails the restart only clears its own handle (silently
dropped, no recording started, not re-queued); with no pending handle a fire
is a no-op; and from a state with no pending restart, only a natural trigger
event can schedule a new one. -/
theorem claim_C1_auto_restart_guard :
    (∀ s micOk, restartGuard { s with pendingRestart := none } = false →
      step s (Ev.restartFire micOk) = { s with pendingRestart := none })
    ∧ (∀ s, s.pendingRestart ≠ none →
        restartGuard { s with pendingRestart := none } = true →
        step s (Ev.restartFire true) = startListening true { s with pendingRestart := none }
        ∧ (step s (Ev.restartFire true)).isRecording = true)
    ∧ (∀ s micOk, s.pendingRestart = none → step s (Ev.restartFire micOk) = s)
    ∧ (∀ s e, s.pendingRestart = none → (step s e).pendingRestart ≠ none →
        canSchedule e = true) := by
  refine ⟨?_, ?_, ?_, ?_⟩
  · intro s micOk hg
    simp only [step]
    cases hp : s.pendingRestart with
    | none => rw [pending_none_eta s hp]
    | some d =>
      simp only [fireAutoRestart]
      rw [hg]
      simp
  · intro s hp hg
    rcases hne : s.pendingRestart with _ | d
    · exact absurd hne hp
    · constructor
      · simp only [step, hne, fireAutoRestart]
        rw [hg]
        simp
      · simp only [step, hne, fireAutoRestart]
        rw [hg]
        simp only [if_true]
        have hg2 := hg
        simp only [restartGuard, Bool.and_eq_true, Bool.not_eq_true'] at hg2
        obtain ⟨⟨⟨⟨-, hr⟩, -⟩, hpr⟩, hsp⟩ := hg2
        simp [startListening, hr, hpr, hsp]
  · intro s micOk hp
    simp [step, hp]
  · intro s e hp hp2
    cases e <;> simp [canSchedule] <;>
      revert hp2 <;>
      simp [step, scheduleAutoRestart, clearAudio, hp] <;>
      split_ifs <;> simp [hp]

/-- C1 witness: a restart fired while processing is dropped without starting
a recording and with no pending handle left; one fired with all guards
holding starts one. -/
theorem claim_C1_auto_restart_guard_witness :
    step { initState with isProcessing := true, pendingRestart := some 300 }
        (Ev.restartFire true)
      = { initState with isProcessing := true, pendingRestart := none }
    ∧ (step { initState with isCallActive := true, pendingRestart := some 300 }
        (Ev.restartFire true)).isRecording = true
    ∧ step initState (Ev.restartFire true) = initState
    ∧ canSchedule Ev.workletEnded = true := by
  refine ⟨?_, ?_, ?_, ?_⟩
  · exact claim_C1_auto_restart_guard.1 _ true (by decide)
  · exact (claim_C1_auto_restart_guard.2.1 _ (by decide) (by decide)).2
  · exact claim_C1_auto_restart_guard.2.2.1 _ true (by decide)
  · exact claim_C1_auto_restart_guard.2.2.2 initState Ev.workletEnded (by decide)
      (by decide)

/-- C2: starting capture is a no-op whenever a recording is in progress, a
turn is processing or audio is playing; consequently along every event
sequence from the initial state at most one recording session is open and
capture and playback are never simultaneously active. -/
theorem claim_C2_capture_mutual_exclusion :
    (∀ s micOk, (s.isRecording || s.isProcessing || s.isSpeaking) = true →
      startListening micOk s = s)
    ∧ (∀ es, (steps initState es).openSessions ≤ 1)
    ∧ (∀ es, ¬((steps initState es).isRecording = true
        ∧ (steps initState es).isSpeaking = true)) := by
  refine ⟨?_, ?_, ?_⟩
  · intro s micOk hg
    simp [startListening, hg]
  · intro es
    obtain ⟨h1, -, -⟩ := inv_steps initState es inv_initState
    rw [h1]
    split_ifs <;> omega
  · intro es
    exact (inv_steps initState es inv_initState).2.2

/-- C2 witness: starting capture while speaking changes nothing, and a
concrete event sequence keeps at most one session open. -/
theorem claim_C2_capture_mutual_exclusion_witness :
    startListening true { initState with isSpeaking := true }
      = { initState with isSpeaking := true }
    ∧ (steps initState [Ev.startCallOk, Ev.restartFire true]).openSessions ≤ 1 := by
  constructor
  · exact claim_C2_capture_mutual_exclusion.1 _ true (by decide)
  · exact claim_C2_capture_mutual_exclusion.2.1 _

/-- C3: a VAD run over samples that never exceed the silence threshold never
stops the recorder when no speech was detected before; a silence-triggered
stop implies some earlier sample exceeded the threshold; and the independent
hard safety cutoff stops an open recording regardless. -/
theorem claim_C3_vad_has_spoken_guard :
    (∀ v samples, v.hasSpoken = false →
      (samples.all fun p => decide (p.2 ≤ SILENCE_THRESHOLD)) = true →
      (runVad v samples).2 = false)
    ∧ (∀ v samples, v.hasSpoken = false → (runVad v samples).2 = true →
        ∃ p ∈ samples, SILENCE_THRESHOLD < p.2)
    ∧ (∀ s size, s.isRecording = true →
        (step s (Ev.safetyStop size)).isRecording = false) := by
  refine ⟨?_, ?_, ?_⟩
  · intro v samples hv hall
    induction samples generalizing v with
    | nil => simp [runVad]
    | cons p rest ih =>
      obtain ⟨now, amp⟩ := p
      simp only [List.all_cons, Bool.and_eq_true, decide_eq_true_eq] at hall
      obtain ⟨hamp, hrest⟩ := hall
      have hns : ¬(SILENCE_THRESHOLD < amp) := by omega
      simp only [runVad, checkAudioLevel, hns, if_false, hv]
      simp only [Bool.false_and, Bool.false_eq_true, if_false]
      exact ih v hv hrest
  · intro v samples hv hstop
    induction samples generalizing v with
    | nil => simp [runVad] at hstop
    | cons p rest ih =>
      obtain ⟨now, amp⟩ := p
      by_cases hamp : SILENCE_THRESHOLD < amp
      · exact ⟨(now, amp), by simp, hamp⟩
      · simp only [runVad, checkAudioLevel, hamp, if_false, hv] at hstop
        simp only [Bool.false_and, Bool.false_eq_true, if_false] at hstop
        obtain ⟨q, hq, hq2⟩ := ih v hv hstop
        exact ⟨q, by simp [hq], hq2⟩
  · intro s size hr
    simp only [step, hr, if_true]
    simp [onRecorderStop, sendVoiceMessageStart, scheduleAutoRestart, stopListening]
    split_ifs <;> simp

/-- C3 witness: two seconds of silence on a channel that never saw speech do
not stop the recorder; a stop on such a channel exhibits a loud sample; the
safety cutoff stops a recording state. -/
theorem claim_C3_vad_has_spoken_guard_witness :
    (runVad { lastSoundTime := 0, hasSpoken := false } [(0, 5), (2000, 5), (4000, 5)]).2 = false
    ∧ (∃ p ∈ [((0 : Nat), (20 : Nat)), ((2000 : Nat), (5 : Nat))], SILENCE_THRESHOLD < p.2)
    ∧ (step { initState with isRecording := true } (Ev.safetyStop 5000)).isRecording = false := by
  refine ⟨?_, ?_, ?_⟩
  · exact claim_C3_vad_has_spoken_guard.1 _ _ (by decide) (by decide)
  · exact claim_C3_vad_has_spoken_guard.2.1 { lastSoundTime := 0, hasSpoken := false }
      [((0 : Nat), (20 : Nat)), ((2000 : Nat), (5 : Nat))] (by decide) (by decide)
  · exact claim_C3_vad_has_spoken_guard.2.2 _ 5000 (by decide)

/-- C4: the synchronous prefix of endCall clears the active flag, the pending
restart timer, the speaking flag and any in-flight recording; the active
flag stays false along any event sequence without a new call start; and a
restart firing while the call is inactive starts no recording and opens no
session. -/
theorem claim_C4_end_call_cancellation :
    (∀ s, (endCallSync s).isCallActive = false
      ∧ (endCallSync s).pendingRestart = none
      ∧ (endCallSync s).isSpeaking = false
      ∧ (endCallSync s).isRecording = false
      ∧ (endCallSync s).isListening = false)
    ∧ (∀ s es, s.isCallActive = false → (∀ e ∈ es, isStartCall e = false) →
        (steps s es).isCallActive = false)
    ∧ (∀ s micOk, s.isCallActive = false →
        (step s (Ev.restartFire micOk)).isRecording = s.isRecording
        ∧ (step s (Ev.restartFire micOk)).openSessions = s.openSessions) := by
  refine ⟨?_, ?_, ?_⟩
  · intro s
    refine ⟨?_, ?_, ?_, ?_, ?_⟩ <;> simp [endCallSync, clearAudio, stopListening]
  · intro s es h hes
    exact activeFalse_steps s es hes h
  · intro s micOk h
    simp only [step]
    cases hp : s.pendingRestart with
    | none => exact ⟨rfl, rfl⟩
    | some d =>
      have hg : restartGuard { s with pendingRestart := none } = false := by
        simp [restartGuard, h]
      simp only [fireAutoRestart]
      rw [hg]
      simp

/-- C4 witness: after the synchronous prefix of endCall, a stream-done of the
still-open turn followed by a restart fire leaves the call inactive, and a
fire on the inactive state starts no recording. -/
theorem claim_C4_end_call_cancellation_witness :
    (endCallSync { initState with isCallActive := true, isSpeaking := true, pendingRestart := some 300 }).isCallActive = false
    ∧ (steps (endCallSync { initState with isCallActive := true })
        [Ev.streamDone false 2000, Ev.restartFire true]).isCallActive = false
    ∧ (step (endCallSync { initState with isCallActive := true })
        (Ev.restartFire true)).isRecording
      = (endCallSync { initState with isCallActive := true }).isRecording := by
  refine ⟨?_, ?_, ?_⟩
  · exact (claim_C4_end_call_cancellation.1 _).1
  · exact claim_C4_end_call_cancellation.2.1 _ _ (by decide) (by decide)
  · exact (claim_C4_end_call_cancellation.2.2 _ true (by decide)).1

/-- C6: a finished recording at or below the minimum blob size is discarded
(nothing is handed to the send path) and a restart with the short 100ms
delay is scheduled; a blob above the threshold is handed to the send path
and this step leaves the pending restart unchanged. -/
theorem claim_C6_min_blob_size :
    ∀ s size,
      (size < 1000 →
        onRecorderStop size s = scheduleAutoRestart 100 s
        ∧ (onRecorderStop size s).sentBlobs = s.sentBlobs
        ∧ (onRecorderStop size s).pendingRestart = some 100)
      ∧ (1000 < size →
        (onRecorderStop size s).sentBlobs = s.sentBlobs ++ [size]
        ∧ (onRecorderStop size s).pendingRestart = s.pendingRestart) := by
  intro s size
  constructor
  · intro hlt
    have h : ¬(1000 < size) := by omega
    refine ⟨?_, ?_, ?_⟩ <;> simp [onRecorderStop, h, scheduleAutoRestart]
  · intro hgt
    simp only [onRecorderStop, hgt, if_true, sendVoiceMessageStart]
    constructor <;> split_ifs <;> simp

/-- C6 witness: a 500-byte blob is discarded and schedules a 100ms restart; a
2000-byte blob is handed to the send path without scheduling one. -/
theorem claim_C6_min_blob_size_witness :
    (onRecorderStop 500 initState).sentBlobs = initState.sentBlobs
    ∧ (onRecorderStop 500 initState).pendingRestart = some 100
    ∧ (onRecorderStop 2000 initState).sentBlobs = initState.sentBlobs ++ [2000]
    ∧ (onRecorderStop 2000 initState).pendingRestart = initState.pendingRestart := by
  refine ⟨?_, ?_, ?_, ?_⟩
  · exact ((claim_C6_min_blob_size initState 500).1 (by decide)).2.1
  · exact ((claim_C6_min_blob_size initState 500).1 (by decide)).2.2
  · exact ((claim_C6_min_blob_size initState 2000).2 (by decide)).1
  · exact ((claim_C6_min_blob_size initState 2000).2 (by decide)).2

/-- C5: the explicit error event of the stream does not abort the turn.  The
`throw new Error(event.error)` of the error case is caught by the per-line
catch around `JSON.parse` (which merely logs non-SyntaxErrors), so on the
concrete failing stream the following user-transcript and tool-call events
are still processed, no user-facing error toast is shown, and the turn is
not terminated — contradicting the claimed abort-and-surface behaviour. -/
theorem claim_C5_error_event_swallowed :
    (processLines initTurn errorStreamInput).messages = [(("user"), ("hello"))]
    ∧ (processLines initTurn errorStreamInput).toolCalls.length = 1
    ∧ (processLines initTurn errorStreamInput).consoleErrors = 1
    ∧ (processLines initTurn errorStreamInput).toastShown = false
    ∧ (processLines initTurn errorStreamInput).endCallRequested = false := by
  refine ⟨?_, ?_, ?_, ?_, ?_⟩ <;> decide

/-- C7: a tool-call-end whose id matches no record leaves the list unchanged;
the update never changes the number of records (no creation, no deletion);
and every record other than a matched one is unchanged in place. -/
theorem claim_C7_tool_call_end_frame :
    (∀ (tcs : List ToolCallData) (id r : String),
      (tcs.all fun tc => !(tc.id == id)) = true →
      toolCallEndUpdate id r tcs = tcs)
    ∧ (∀ (tcs : List ToolCallData) (id r : String),
        (toolCallEndUpdate id r tcs).length = tcs.length)
    ∧ (∀ (tcs : List ToolCallData) (id r : String) (i : Nat) (tc : ToolCallData),
        tcs[i]? = some tc → ¬tc.id = id →
        (toolCallEndUpdate id r tcs)[i]? = some tc) := by
  refine ⟨?_, ?_, ?_⟩
  · intro tcs id r hall
    induction tcs with
    | nil => rfl
    | cons tc rest ih =>
      simp only [List.all_cons, Bool.and_eq_true] at hall
      obtain ⟨hne, hrest⟩ := hall
      have hne2 : ¬tc.id = id := by simpa using hne
      simp only [toolCallEndUpdate, List.map_cons, if_neg hne2]
      have := ih hrest
      simp only [toolCallEndUpdate] at this
      rw [this]
  · intro tcs id r
    simp [toolCallEndUpdate]
  · intro tcs id r i tc hget hne
    simp only [toolCallEndUpdate, List.getElem?_map, hget, Option.map_some]
    simp [if_neg hne]

/-- C7 witness: an end event with an unmatched id leaves a one-record list
unchanged and preserves its length and entries. -/
theorem claim_C7_tool_call_end_frame_witness :
    toolCallEndUpdate ("t2") ("ok") [demoTool] = [demoTool]
    ∧ (toolCallEndUpdate ("t2") ("ok") [demoTool]).length = 1
    ∧ (toolCallEndUpdate ("t2") ("ok") [demoTool])[0]? = some demoTool := by
  refine ⟨?_, ?_, ?_⟩
  · exact claim_C7_tool_call_end_frame.1 _ _ _ (by decide)
  · exact claim_C7_tool_call_end_frame.2.1 _ _ _
  · exact claim_C7_tool_call_end_frame.2.2 _ _ _ 0 _ (by decide) (by decide)

theorem streamStatusOk_processLine (t : TurnState) (l : SseLine)
    (h : (t.toolCalls.all fun tc => streamStatusOk tc.status) = true) :
    ((processLine t l).toolCalls.all fun tc => streamStatusOk tc.status) = true := by
  cases l with
  | malformed => exact h
  | ev e =>
    cases e with
    | userTranscript d => exact h
    | toolCallStart id name params =>
      simp only [processLine, processStreamEvent, List.all_append]
      rw [h]
      rfl
    | toolCallEnd id result =>
      simp only [processLine, processStreamEvent, toolCallEndUpdate, List.all_map,
        List.all_eq_true] at h ⊢
      intro tc htc
      simp only [Function.comp]
      split_ifs with hid
      · simp [streamStatusOk]
      · exact h tc htc
    | transcript d => exact h
    | audio d => exact h
    | done endFlag =>
      simp only [processLine, processStreamEvent]
      split_ifs <;> exact h
    | error m => exact h

/-- C10: processing any stream from a turn state whose tool-call records all
have status running or completed keeps every record's status running or
completed — the stream path never assigns pending or error. -/
theorem claim_C10_stream_statuses :
    ∀ t lines, (t.toolCalls.all fun tc => streamStatusOk tc.status) = true →
      ((processLines t lines).toolCalls.all fun tc => streamStatusOk tc.status) = true := by
  intro t lines
  induction lines generalizing t with
  | nil => exact fun h => h
  | cons l ls ih =>
    intro h
    exact ih _ (streamStatusOk_processLine t l h)

/-- C10 witness: a concrete stream creating a tool call and completing it
yields only running/completed statuses. -/
theorem claim_C10_stream_statuses_witness :
    ((processLines initTurn demoToolLines).toolCalls.all
      fun tc => streamStatusOk tc.status) = true :=
  claim_C10_stream_statuses initTurn demoToolLines (by decide)

/- ===================== Signal extractor lemmas ===================== -/

theorem sep_not_digit (c : Char) (h : isSep c = true) : c.isDigit = false := by
  simp only [isSep, jsWs, Bool.or_eq_true, decide_eq_true_eq] at h
  repeat' rcases h with h | h
  all_goals decide

theorem digit_not_sep (c : Char) (h : c.isDigit = true) : isSep c = false := by
  cases hs : isSep c
  · rfl
  · rw [sep_not_digit c hs] at h
    simp at h

theorem firstSpaced_decomp (l m : List Char) (h : firstSpaced l = some m) :
    ∃ a b, l = a ++ m ++ b ∧ (∀ c ∈ m, digitOrWs c = true)
      ∧ 10 ≤ (m.filter Char.isDigit).length := by
  induction l with
  | nil => simp [firstSpaced] at h
  | cons c rest ih =>
    simp only [firstSpaced] at h
    split_ifs at h with hcond
    · injection h with h
      subst h
      simp only [Bool.and_eq_true, decide_eq_true_eq] at hcond
      obtain ⟨hcd, hcnt⟩ := hcond
      refine ⟨[], rest.dropWhile digitOrWs, ?_, ?_, hcnt⟩
      · simp [List.takeWhile_append_dropWhile]
      · intro x hx
        rcases List.mem_cons.mp hx with rfl | hx2
        · simp [digitOrWs, hcd]
        · exact List.mem_takeWhile_imp hx2
    · obtain ⟨a, b, hd, hm, hc2⟩ := ih h
      exact ⟨c :: a, b, by simp [hd], hm, hc2⟩

theorem filter_digitOrWs (m : List Char) (hm : ∀ c ∈ m, digitOrWs c = true) :
    m.filter (fun c => !isSep c) = m.filter Char.isDigit := by
  induction m with
  | nil => rfl
  | cons a m ih =>
    have ha := hm a (by simp)
    have hrest : ∀ c ∈ m, digitOrWs c = true := fun c hc => hm c (by simp [hc])
    simp only [digitOrWs, Bool.or_eq_true] at ha
    rcases ha with hd | hw
    · have hs : isSep a = false := digit_not_sep a hd
      simp [List.filter_cons, hd, hs, ih hrest]
    · have hs : isSep a = true := by simp [isSep, hw]
      have hd : a.isDigit = false := sep_not_digit a hs
      simp [List.filter_cons, hd, hs, ih hrest]

theorem firstRun10Go_none (l : List Char) : ∀ cur, firstRun10Go cur l = none →
    ∀ a d b, l = a ++ d ++ b → (∀ c ∈ d, c.isDigit = true) →
    d.length + (if a = [] then cur.length else 0) < 10 := by
  induction l with
  | nil =>
    intro cur h a d b hdec hd
    have ha : a = [] := by
      cases a with
      | nil => rfl
      | cons x xs => simp at hdec
    subst ha
    have hdnil : d = [] := by
      cases d with
      | nil => rfl
      | cons x xs => simp at hdec
    subst hdnil
    simp only [firstRun10Go] at h
    split_ifs at h with hcur
    have hcl : cur.length < 10 := by omega
    simpa using hcl
  | cons c rest ih =>
    intro cur h a d b hdec hd
    simp only [firstRun10Go] at h
    by_cases hc : c.isDigit = true
    · simp only [hc, if_true] at h
      cases a with
      | nil =>
        cases d with
        | nil =>
          have h2 := ih (c :: cur) h [] [] rest (by simp) (by simp)
          simp at h2 ⊢
          omega
        | cons c2 d2 =>
          simp only [List.nil_append, List.cons_append, List.cons.injEq] at hdec
          obtain ⟨rfl, hrest⟩ := hdec
          have h2 := ih (c :: cur) h [] d2 b (by rw [hrest]; simp)
            (fun x hx => hd x (by simp [hx]))
          simp at h2 ⊢
          omega
      | cons x a2 =>
        simp only [List.cons_append, List.cons.injEq] at hdec
        obtain ⟨rfl, hrest⟩ := hdec
        have h2 := ih (c :: cur) h a2 d b hrest hd
        by_cases ha2 : a2 = []
        · subst ha2
          simp at h2 ⊢
          omega
        · simp [ha2] at h2 ⊢
          omega
    · have hcf : c.isDigit = false := by simpa using hc
      simp only [hcf, Bool.false_eq_true, if_false] at h
      split_ifs at h with hcur
      cases a with
      | nil =>
        cases d with
        | nil =>
          simp
          omega
        | cons c2 d2 =>
          simp only [List.nil_append, List.cons_append, List.cons.injEq] at hdec
          obtain ⟨rfl, -⟩ := hdec
          have hcd := hd c (by simp)
          rw [hcf] at hcd
          simp at hcd
      | cons x a2 =>
        simp only [List.cons_append, List.cons.injEq] at hdec
        obtain ⟨rfl, hrest⟩ := hdec
        have h2 := ih [] h a2 d b hrest hd
        by_cases ha2 : a2 = [] <;> simp [ha2] at h2 ⊢ <;> omega

theorem firstRun10_none_bound (l : List Char) (h : firstRun10 l = none)
    (a d b : List Char) (hdec : l = a ++ d ++ b) (hd : ∀ c ∈ d, c.isDigit = true) :
    d.length < 10 := by
  have h2 := firstRun10Go_none l [] h a d b hdec hd
  by_cases ha : a = [] <;> simp [ha] at h2 <;> omega

/-- The spaced-digit fallback of `extractPhoneNumber` is unreachable: any
match of `/(\d\s*){10,}/` on the normalized text leaves a run of at least 10
consecutive digits after separator stripping, so the first pattern already
matched. -/
theorem extractPhoneNumberL_eq_phoneSpecL (t : List Char) :
    extractPhoneNumberL t = phoneSpecL t := by
  simp only [extractPhoneNumberL, phoneSpecL]
  cases hfr : firstRun10 ((normalizeWords (lowerL t)).filter fun c => !isSep c) with
  | some run => rfl
  | none =>
    cases hfs : firstSpaced (normalizeWords (lowerL t)) with
    | none => rfl
    | some m =>
      exfalso
      obtain ⟨a, b, hdec, hmem, hcnt⟩ := firstSpaced_decomp _ _ hfs
      have hfd := filter_digitOrWs m hmem
      have hdec2 : (normalizeWords (lowerL t)).filter (fun c => !isSep c)
          = a.filter (fun c => !isSep c) ++ m.filter Char.isDigit
            ++ b.filter (fun c => !isSep c) := by
        rw [hdec]
        simp [List.filter_append, hfd]
      have hlt := firstRun10_none_bound _ hfr _ _ _ hdec2
        (fun c hc => (List.mem_filter.mp hc).2)
      omega

/-- C8: extractPhoneNumber behaves exactly as specified — normalize spoken
digit words, strip separators, and return the last 10 digits of the first
run of at least 10 consecutive digits, or none (the source's spaced-digit
fallback is dead code) — and the two concrete examples hold. -/
theorem claim_C8_extract_phone :
    (∀ t, extractPhoneNumberL t = phoneSpecL t)
    ∧ extractPhoneNumber ("my number is nine six eight, six four five, six zero nine zero")
        = some ("9686456090")
    ∧ extractPhoneNumber ("call 555-123-4567 please") = some ("5551234567") := by
  refine ⟨extractPhoneNumberL_eq_phoneSpecL, ?_, ?_⟩ <;> decide

theorem extractNameGo_sound (text : List Char) (ps : List (List (List Char)))
    (n : List Char) (h : extractNameGo text ps = some n) :
    ∃ p ∈ ps, ∃ cap, findPat p text = some cap
      ∧ falsePositivesL.contains (lowerL cap) = false
      ∧ n = capitalizeL cap := by
  induction ps with
  | nil => simp [extractNameGo] at h
  | cons p ps ih =>
    simp only [extractNameGo] at h
    cases hf : findPat p text with
    | none =>
      rw [hf] at h
      obtain ⟨q, hq, cap, hcap⟩ := ih h
      exact ⟨q, by simp [hq], cap, hcap⟩
    | some cap =>
      rw [hf] at h
      have h2 : (if falsePositivesL.contains (lowerL cap) = true then extractNameGo text ps
          else some (capitalizeL cap)) = some n := h
      by_cases hc : falsePositivesL.contains (lowerL cap) = true
      · rw [if_pos hc] at h2
        obtain ⟨q, hq, cap2, hcap2⟩ := ih h2
        exact ⟨q, by simp [hq], cap2, hcap2⟩
      · rw [if_neg hc] at h2
        injection h2 with h2
        exact ⟨p, by simp, cap, hf, by simpa using hc, h2.symm⟩

theorem extractNameGo_none_iff (text : List Char) (ps : List (List (List Char))) :
    extractNameGo text ps = none ↔
      ∀ p ∈ ps, ∀ cap, findPat p text = some cap →
        falsePositivesL.contains (lowerL cap) = true := by
  induction ps with
  | nil => simp [extractNameGo]
  | cons p ps ih =>
    constructor
    · intro h q hq cap hcap
      rcases List.mem_cons.mp hq with rfl | hq2
      · simp only [extractNameGo, hcap] at h
        have h2 : (if falsePositivesL.contains (lowerL cap) = true then extractNameGo text ps
            else some (capitalizeL cap)) = none := h
        by_cases hc : falsePositivesL.contains (lowerL cap) = true
        · exact hc
        · rw [if_neg hc] at h2
          simp at h2
      · cases hf : findPat p text with
        | none =>
          simp only [extractNameGo, hf] at h
          exact (ih.mp h) q hq2 cap hcap
        | some cap1 =>
          simp only [extractNameGo, hf] at h
          have h2 : (if falsePositivesL.contains (lowerL cap1) = true then extractNameGo text ps
              else some (capitalizeL cap1)) = none := h
          by_cases hc1 : falsePositivesL.contains (lowerL cap1) = true
          · rw [if_pos hc1] at h2
            exact (ih.mp h2) q hq2 cap hcap
          · rw [if_neg hc1] at h2
            simp at h2
    · intro hall
      simp only [extractNameGo]
      cases hf : findPat p text with
      | none =>
        show extractNameGo text ps = none
        exact ih.mpr (fun q hq cap hcap => hall q (by simp [hq]) cap hcap)
      | some cap =>
        show (if falsePositivesL.contains (lowerL cap) = true then extractNameGo text ps
            else some (capitalizeL cap)) = none
        rw [if_pos (hall p (by simp) cap hf)]
        exact ih.mpr (fun q hq cap2 hcap2 => hall q (by simp [hq]) cap2 hcap2)

/-- C9: extractName returns some name exactly when one of the five
introductory phrase patterns has a leftmost capture in the input text whose
lower-cased form is off the false-positive denylist, and the returned name
is that capture with first letter upper-cased and the rest lower-cased;
with no accepted capture it returns none; and the two concrete examples
hold. -/
theorem claim_C9_extract_name :
    (∀ t n, extractNameL t = some n →
      ∃ p ∈ namePatterns, ∃ cap, findPat p t = some cap
        ∧ falsePositivesL.contains (lowerL cap) = false
        ∧ n = capitalizeL cap)
    ∧ (∀ t, extractNameL t = none ↔
        ∀ p ∈ namePatterns, ∀ cap, findPat p t = some cap →
          falsePositivesL.contains (lowerL cap) = true)
    ∧ extractName ("Hi, this is John, I need an appointment") = some ("John")
    ∧ extractName ("I'm calling about a refund") = none := by
  refine ⟨?_, ?_, ?_, ?_⟩
  · intro t n h
    exact extractNameGo_sound t namePatterns n h
  · intro t
    exact extractNameGo_none_iff t namePatterns
  · decide
  · decide

/-- C9 witness: the name extracted from a concrete utterance is the
capitalized capture of one of the patterns in that text, off the denylist. -/
theorem claim_C9_extract_name_witness :
    ∃ p ∈ namePatterns, ∃ cap, findPat p (("call me Bob").toList) = some cap
      ∧ falsePositivesL.contains (lowerL cap) = false
      ∧ (("Bob").toList) = capitalizeL cap :=
  claim_C9_extract_name.1 (("call me Bob").toList) (("Bob").toList) (by decide)

end VoiceAgent
